import Mathlib

/-!
# EnclaveFi `EncryptedStaking` — shallow embedding and verification

A shallow embedding of the `EncryptedStaking` contract (ETH / mUSDT
confidential staking ledger) and of the parts of its collaborators that the
verified properties need, together with proofs and refutations of the
specification's claims.

Modelling conventions:
* A Confidential Value (`euint128` / `euint64` handle) is an `EV`: an optional
  plaintext (`none` = uninitialized handle) together with its access-control
  state (ledger grant, per-user grants, public-decryptability flag).  Fresh
  results of coprocessor arithmetic carry no grants; grants are added only by
  the explicit `allow` / `makePubliclyDecryptable` calls the contract makes.
* Machine integers are `Nat` with explicit `% 2^128` (resp. `% 2^64`) where
  the width matters.  All coprocessor divisions are floor divisions.
* Solidity `revert` is embedded as `Except`: an operation either returns the
  full successor state (`.ok`) or an error and *no* state (`.error`), which is
  the all-or-nothing transaction semantics the settlement network provides.
* `block.timestamp` is an explicit `now : Nat` argument; `msg.sender` an
  explicit address argument (addresses are `Nat`).
-/

namespace EnclaveFi

/-- `2^128`, the modulus of the `euint128` ciphertext domain. -/
def W128 : Nat := 2 ^ 128

/-- `2^64`, the modulus of the `euint64` ciphertext domain. -/
def W64 : Nat := 2 ^ 64

/-- Seconds per day (`SECONDS_PER_DAY` in the contract). -/
def SECONDS_PER_DAY : Nat := 86400

/-- Percent denominator (`PERCENT_DENOMINATOR` in the contract). -/
def PERCENT_DENOMINATOR : Nat := 100

/-- The fixed-point divisor `1_000_000_000_000` used for ETH interest. -/
def ETH_TO_REWARD_SCALE : Nat := 1000000000000

/-- A Confidential Value: an opaque ciphertext handle.  `val = none` models an
uninitialized handle; `some v` a handle whose underlying plaintext is `v`.
`allowThis` / `allowed` / `pub` record the decrypt grants attached to the
handle (ledger contract itself, user principals, publicly decryptable). -/
structure EV where
  val : Option Nat
  allowThis : Bool
  allowed : List Nat
  pub : Bool
deriving Repr, DecidableEq

/-- The uninitialized handle (Solidity default value of an `euintN` field). -/
def EV.uninit : EV := ⟨none, false, [], false⟩

/-- A fresh coprocessor result: carries a plaintext but no grants yet. -/
def fresh (v : Option Nat) : EV := ⟨v, false, [], false⟩

/-- `FHE.isInitialized`. -/
def isInit (a : EV) : Bool := a.val.isSome

/-- `FHE.asEuint128` on a plaintext: a trivial encryption, always initialized. -/
def asEuint128 (n : Nat) : EV := fresh (some (n % W128))

/-- Modelled from the spec: coprocessor `add` over the 128-bit domain.  Per the
spec's Accrual Engine contract, the sum of two uninitialized operands is
uninitialized, and an uninitialized operand contributes nothing (the total
interest is "uninitialized (never touched) because both stakes are
uninitialized", else the sum of the initialized parts). -/
def fheAdd (a b : EV) : EV :=
  match a.val, b.val with
  | none, none => fresh none
  | none, some y => fresh (some (y % W128))
  | some x, none => fresh (some (x % W128))
  | some x, some y => fresh (some ((x + y) % W128))

/-- Modelled from the spec: coprocessor `sub` over the fixed-width 128-bit
unsigned domain (wrapping subtraction); uninitialized operands propagate. -/
def fheSub (a b : EV) : EV :=
  match a.val, b.val with
  | some x, some y => fresh (some ((x % W128 + (W128 - y % W128)) % W128))
  | _, _ => fresh none

/-- Modelled from the spec: coprocessor `mul` by a plaintext scalar over the
fixed-width 128-bit domain (wrapping); uninitialized operands propagate. -/
def fheMulScalar (a : EV) (k : Nat) : EV :=
  match a.val with
  | none => fresh none
  | some x => fresh (some (x * k % W128))

/-- Modelled from the spec: coprocessor `div` by a plaintext scalar — integer
(floor) division; uninitialized operands propagate. -/
def fheDivScalar (a : EV) (k : Nat) : EV :=
  match a.val with
  | none => fresh none
  | some x => fresh (some (x / k))

/-- `FHE.asEuint64` applied to an `euint128` handle: narrowing cast, truncates
the plaintext modulo `2^64`. -/
def asEuint64of128 (a : EV) : EV :=
  match a.val with
  | none => fresh none
  | some x => fresh (some (x % W64))

/-- `FHE.asEuint128` applied to an `euint64` handle: widening cast. -/
def asEuint128of64 (a : EV) : EV :=
  match a.val with
  | none => fresh none
  | some x => fresh (some (x % W128))

/-- `FHE.allow`: grant a user principal decryption rights on a handle. -/
def allowUser (a : EV) (user : Nat) : EV := { a with allowed := user :: a.allowed }

/-- `FHE.allowThis`: grant the ledger contract decryption rights. -/
def allowLedger (a : EV) : EV := { a with allowThis := true }

/-- `FHE.makePubliclyDecryptable`. -/
def makePublic (a : EV) : EV := { a with pub := true }

/-- `_shareValue`: skip uninitialized handles; otherwise grant the ledger and
the user, and (when `mp` is set) mark publicly decryptable. -/
def shareValue (a : EV) (user : Nat) (mp : Bool) : EV :=
  if isInit a then
    let a := allowLedger a
    let a := allowUser a user
    if mp then makePublic a else a
  else a

/-- A user position (`StakeInfo`): two encrypted stakes, encrypted pending
rewards, and the plaintext `uint64` checkpoint `lastUpdated`. -/
structure StakeInfo where
  ethStake : EV
  musdtStake : EV
  pendingRewards : EV
  lastUpdated : Nat
deriving Repr, DecidableEq

/-- The default (never-touched) position. -/
def StakeInfo.empty : StakeInfo := ⟨EV.uninit, EV.uninit, EV.uninit, 0⟩

/-- The interest term of `_accrue` for an (already decremented) elapsed time:
`ethAccrued + musdtInterest`, with the contract's divisor chain. -/
def interestOf (info : StakeInfo) (elapsed : Nat) : EV :=
  let ethAccrued := fheMulScalar info.ethStake elapsed
  let ethAccrued := fheDivScalar ethAccrued SECONDS_PER_DAY
  let ethAccrued := fheDivScalar ethAccrued ETH_TO_REWARD_SCALE
  let musdtInterest :=
    fheDivScalar (fheMulScalar info.musdtStake elapsed)
      (SECONDS_PER_DAY * PERCENT_DENOMINATOR)
  fheAdd ethAccrued musdtInterest

/-- `_accrue`: the accrual engine, a function of the position and `now`
(`block.timestamp`, assumed `≥ lastUpdated`; the `uint64` casts of the
contract are the `% W64` reductions). -/
def accrue (now : Nat) (user : Nat) (info : StakeInfo) : StakeInfo :=
  if info.lastUpdated = 0 then
    { info with lastUpdated := now % W64 }
  else
    let elapsed := (now - info.lastUpdated) % W64
    if elapsed = 0 then info
    else
      let elapsed := elapsed - 1
      if elapsed = 0 then info
      else
        let totalInterest := interestOf info elapsed
        if isInit totalInterest = false then
          { info with lastUpdated := now % W64 }
        else
          let pr :=
            if isInit info.pendingRewards then fheAdd info.pendingRewards totalInterest
            else totalInterest
          { info with
              pendingRewards := shareValue pr user true
              lastUpdated := now % W64 }

/-- The contract errors. -/
inductive Err where
  | InvalidAmount
  | NoRewardsAvailable
  | TransferFailed
  | ProofInvalid
deriving Repr, DecidableEq

/-- Global state: the staking contract's per-address positions and the mUSDT
token's confidential balances (modelled by their plaintexts, `euint64`). -/
structure State where
  stakes : Nat → StakeInfo
  musdtBalances : Nat → Nat

/-- Point update of an address-keyed map. -/
def setAt {α : Type} (f : Nat → α) (a : Nat) (v : α) : Nat → α :=
  fun x => if x = a then v else f x

/-- `stakeEth`: deposit of asset-1 (native ETH, `msg.value = value`).  Rejects
a zero value and a value exceeding `type(uint128).max`; accrues; adds the
trivial encryption of the value to `ethStake` (or takes it as the initial
stake); shares; stamps `lastUpdated`. -/
def stakeEth (s : State) (sender : Nat) (value : Nat) (now : Nat) :
    Except Err State :=
  if value = 0 ∨ value > W128 - 1 then .error .InvalidAmount
  else
    let info := accrue now sender (s.stakes sender)
    let addition := asEuint128 value
    let eth :=
      if isInit info.ethStake then fheAdd info.ethStake addition else addition
    let info :=
      { info with
          ethStake := shareValue eth sender true
          lastUpdated := now % W64 }
    .ok { s with stakes := setAt s.stakes sender info }

/-- Modelled from the spec: the mUSDT `confidentialTransferFrom` primitive
(OpenZeppelin ERC7984, outside this repository) "clamps/caps the
actually-transferred amount" to the sender's balance and returns the amount
actually transferred.  Returns the transferred amount and the updated balance
map. -/
def confidentialTransferFrom (bal : Nat → Nat) (source : Nat) (dest : Nat)
    (requested : Nat) : Nat × (Nat → Nat) :=
  let transferred := min (requested % W64) (bal source)
  let bal := setAt bal source (bal source - transferred)
  let bal := setAt bal dest ((bal dest + transferred) % W64)
  (transferred, bal)

/-- The staking contract's own address, as an mUSDT account. -/
def ledgerAddr : Nat := 0

/-- `stakeMusdt`: deposit of asset-2.  `requested` is the plaintext of the
proof-validated external `euint64` input.  Transfers via the token's
confidential-transfer primitive and adds the *returned* transferred amount to
`musdtStake`; shares; stamps `lastUpdated`.  No amount validation is
performed. -/
def stakeMusdt (s : State) (sender : Nat) (requested : Nat) (now : Nat) :
    Except Err State :=
  let info := accrue now sender (s.stakes sender)
  let res := confidentialTransferFrom s.musdtBalances sender ledgerAddr requested
  let stakeIncrement := asEuint128of64 (fresh (some (res.1 % W64)))
  let musdt :=
    if isInit info.musdtStake then fheAdd info.musdtStake stakeIncrement
    else stakeIncrement
  let info :=
    { info with
        musdtStake := shareValue musdt sender true
        lastUpdated := now % W64 }
  .ok { s with stakes := setAt s.stakes sender info, musdtBalances := res.2 }

/-- `withdrawEth`.  `attested` is the plaintext decoded from
`abiEncodedClearValue`; `sigOk` models `FHE.checkSignatures` accepting the
proof for the live `ethStake` handle (reverting otherwise); `transferOk`
models success of the native value transfer to the caller.  Errors follow the
contract's order: zero amount, uninitialized stake, proof check, bounds check
against the attested stake, then the transfer. -/
def withdrawEth (s : State) (sender : Nat) (amount : Nat) (attested : Nat)
    (sigOk : Bool) (transferOk : Bool) (now : Nat) : Except Err State :=
  if amount = 0 then .error .InvalidAmount
  else
    let info := accrue now sender (s.stakes sender)
    if isInit info.ethStake = false then .error .InvalidAmount
    else if sigOk = false then .error .ProofInvalid
    else if amount > attested ∨ amount > W128 - 1 then .error .InvalidAmount
    else
      let remaining := fheSub info.ethStake (asEuint128 amount)
      let info :=
        { info with
            ethStake := shareValue remaining sender true
            lastUpdated := now % W64 }
      if transferOk = false then .error .TransferFailed
      else .ok { s with stakes := setAt s.stakes sender info }

/-- Modelled from the spec: mUSDT `mintEncrypted` (Reward Asset Minter) "mints
that exact encrypted amount into the recipient's confidential balance"
(`euint64` balance, wrapping at the 64-bit width). -/
def mintEncrypted (bal : Nat → Nat) (dest : Nat) (amount : Nat) : Nat → Nat :=
  setAt bal dest ((bal dest + amount % W64) % W64)

/-- `claimRewards`: accrues; requires `pendingRewards` initialized (else
`NoRewardsAvailable`); casts the pending rewards to `euint64`; resets
`pendingRewards` to a shared trivial encryption of zero; stamps
`lastUpdated`; mints the cast amount to the caller.  Returns the new state
and the minted plaintext. -/
def claimRewards (s : State) (sender : Nat) (now : Nat) :
    Except Err (State × Nat) :=
  let info := accrue now sender (s.stakes sender)
  match info.pendingRewards.val with
  | none => .error .NoRewardsAvailable
  | some v =>
      let rewards := v % W64
      let info :=
        { info with
            pendingRewards := shareValue (asEuint128 0) sender true
            lastUpdated := now % W64 }
      .ok ({ s with
              stakes := setAt s.stakes sender info
              musdtBalances := mintEncrypted s.musdtBalances sender rewards },
           rewards)

/-- `syncRewards`: accrues only and returns the resulting `pendingRewards`
handle; no error path. -/
def syncRewards (s : State) (sender : Nat) (now : Nat) :
    Except Err (State × EV) :=
  let info := accrue now sender (s.stakes sender)
  .ok ({ s with stakes := setAt s.stakes sender info }, info.pendingRewards)

/-- `getPosition` (read-only `view`): the four position fields verbatim, and
the state, unchanged. -/
def getPosition (s : State) (user : Nat) : (EV × EV × EV × Nat) × State :=
  let info := s.stakes user
  ((info.ethStake, info.musdtStake, info.pendingRewards, info.lastUpdated), s)

/-- The EVM transaction semantics of a failed `withdrawEth`: a revert rolls
the state back, so the post-state of a failing call is the pre-state. -/
def applyWithdraw (s : State) (sender : Nat) (amount : Nat) (attested : Nat)
    (sigOk : Bool) (transferOk : Bool) (now : Nat) : State :=
  match withdrawEth s sender amount attested sigOk transferOk now with
  | .ok s' => s'
  | .error _ => s

/-! ## Result projections (used to state concrete-input facts) -/

/-- The caller-visible position after a `State`-valued operation. -/
def infoAfter (r : Except Err State) (u : Nat) : Option StakeInfo :=
  match r with
  | .ok s => some (s.stakes u)
  | .error _ => none

/-- Whether a `State`-valued operation succeeded. -/
def isOkS (r : Except Err State) : Bool :=
  match r with
  | .ok _ => true
  | .error _ => false

/-- The position after a claim. -/
def infoAfterClaim (r : Except Err (State × Nat)) (u : Nat) : Option StakeInfo :=
  match r with
  | .ok (s, _) => some (s.stakes u)
  | .error _ => none

/-- The minted plaintext amount of a claim. -/
def mintedOf (r : Except Err (State × Nat)) : Option Nat :=
  match r with
  | .ok (_, m) => some m
  | .error _ => none

/-- A user's reward-asset balance after a claim. -/
def balAfterClaim (r : Except Err (State × Nat)) (u : Nat) : Option Nat :=
  match r with
  | .ok (s, _) => some (s.musdtBalances u)
  | .error _ => none

/-- The position after a sync. -/
def infoAfterSync (r : Except Err (State × EV)) (u : Nat) : Option StakeInfo :=
  match r with
  | .ok (s, _) => some (s.stakes u)
  | .error _ => none

/-- The `pendingRewards` plaintext a sync returns. -/
def pendingOfSync (r : Except Err (State × EV)) : Option (Option Nat) :=
  match r with
  | .ok (_, ev) => some ev.val
  | .error _ => none

/-! ## Concrete states for scenario evaluation -/

/-- The all-default state: no positions touched, no token balances. -/
def emptyState : State := ⟨fun _ => StakeInfo.empty, fun _ => 0⟩

/-- A position holding one whole ETH (`10^18` wei), checkpointed at `t = 1`. -/
def ethDayInfo : StakeInfo :=
  { ethStake := fresh (some (10 ^ 18)), musdtStake := EV.uninit,
    pendingRewards := EV.uninit, lastUpdated := 1 }

/-- A position holding `10^6` mUSDT base units, checkpointed at `t = 1`. -/
def musdtDayInfo : StakeInfo :=
  { ethStake := EV.uninit, musdtStake := fresh (some (10 ^ 6)),
    pendingRewards := EV.uninit, lastUpdated := 1 }

/-- State where address 1 holds the one-ETH position. -/
def ethDayState : State :=
  { emptyState with stakes := setAt emptyState.stakes 1 ethDayInfo }

/-- State where address 1 holds the `10^6`-mUSDT position. -/
def musdtDayState : State :=
  { emptyState with stakes := setAt emptyState.stakes 1 musdtDayInfo }

/-- State where address 1 has a touched, otherwise empty position
(`lastUpdated = 10`). -/
def touchedState : State :=
  { emptyState with
      stakes := setAt emptyState.stakes 1 { StakeInfo.empty with lastUpdated := 10 } }

/-- State where address 1 has `pendingRewards = 2^64` (a representable
`euint128` plaintext), checkpointed at `t = 5`. -/
def bigPendingState : State :=
  { emptyState with
      stakes := setAt emptyState.stakes 1
        { StakeInfo.empty with pendingRewards := fresh (some (2 ^ 64)), lastUpdated := 5 } }

/-- A position holding `2^127` wei of ETH stake, checkpointed at `t = 1`. -/
def hugeEthState : State :=
  { emptyState with
      stakes := setAt emptyState.stakes 1
        { StakeInfo.empty with ethStake := fresh (some (2 ^ 127)), lastUpdated := 1 } }

/-- The permission-invariant predicate on a handle: the ledger holds a
decrypt grant, the user principal holds a decrypt grant, and the handle is
publicly decryptable. -/
def hasPerms (a : EV) (u : Nat) : Prop :=
  a.allowThis = true ∧ u ∈ a.allowed ∧ a.pub = true

instance (a : EV) (u : Nat) : Decidable (hasPerms a u) := by
  unfold hasPerms; infer_instance

/-! ## Helper lemmas -/

theorem shareValue_hasPerms (a : EV) (u : Nat) (h : isInit a = true) :
    hasPerms (shareValue a u true) u := by
  simp [shareValue, h, allowLedger, allowUser, makePublic, hasPerms]

theorem shareValue_isInit (a : EV) (u : Nat) (mp : Bool) :
    isInit (shareValue a u mp) = isInit a := by
  unfold shareValue
  split
  · split <;> simp_all [isInit, allowLedger, allowUser, makePublic]
  · rfl

theorem shareValue_val (a : EV) (u : Nat) (mp : Bool) :
    (shareValue a u mp).val = a.val := by
  unfold shareValue
  split
  · split <;> simp [allowLedger, allowUser, makePublic]
  · rfl

theorem accrue_ethStake (now u : Nat) (info : StakeInfo) :
    (accrue now u info).ethStake = info.ethStake := by
  unfold accrue
  dsimp only
  split_ifs <;> rfl

theorem accrue_musdtStake (now u : Nat) (info : StakeInfo) :
    (accrue now u info).musdtStake = info.musdtStake := by
  unfold accrue
  dsimp only
  split_ifs <;> rfl

theorem fheAdd_isInit (a b : EV) :
    isInit (fheAdd a b) = (isInit a || isInit b) := by
  unfold fheAdd isInit
  cases a.val <;> cases b.val <;> simp [fresh]

theorem accrue_lastUpdated_one (now u : Nat) (info : StakeInfo)
    (h0 : info.lastUpdated ≠ 0) (_hle : info.lastUpdated ≤ now) (hw : now < W64)
    (h1 : now - info.lastUpdated = 1) :
    (accrue now u info).lastUpdated = info.lastUpdated := by
  have hm : (now - info.lastUpdated) % W64 = now - info.lastUpdated :=
    Nat.mod_eq_of_lt (lt_of_le_of_lt (Nat.sub_le _ _) hw)
  unfold accrue
  dsimp only
  rw [if_neg h0, hm, h1]
  rfl

theorem accrue_lastUpdated_ne_one (now u : Nat) (info : StakeInfo)
    (h0 : info.lastUpdated ≠ 0) (hle : info.lastUpdated ≤ now) (hw : now < W64)
    (h1 : now - info.lastUpdated ≠ 1) :
    (accrue now u info).lastUpdated = now := by
  have hm : (now - info.lastUpdated) % W64 = now - info.lastUpdated :=
    Nat.mod_eq_of_lt (lt_of_le_of_lt (Nat.sub_le _ _) hw)
  have hn : now % W64 = now := Nat.mod_eq_of_lt hw
  unfold accrue
  dsimp only
  rw [if_neg h0, hm]
  by_cases h2 : now - info.lastUpdated = 0
  · rw [if_pos h2]
    omega
  · rw [if_neg h2, if_neg (by omega)]
    split_ifs <;> exact hn

theorem accrue_pendingRewards_cases (now u : Nat) (info : StakeInfo) :
    (accrue now u info).pendingRewards = info.pendingRewards ∨
      (hasPerms (accrue now u info).pendingRewards u ∧
        isInit (accrue now u info).pendingRewards = true) := by
  unfold accrue
  dsimp only
  split_ifs with h1 h2 h3 h4 h5
  · exact Or.inl rfl
  · exact Or.inl rfl
  · exact Or.inl rfl
  · exact Or.inl rfl
  · refine Or.inr ?_
    have hini : isInit (fheAdd info.pendingRewards
        (interestOf info ((now - info.lastUpdated) % W64 - 1))) = true := by
      rw [fheAdd_isInit, h5, Bool.true_or]
    exact ⟨shareValue_hasPerms _ _ hini, by rw [shareValue_isInit]; exact hini⟩
  · refine Or.inr ?_
    have hini : isInit (interestOf info ((now - info.lastUpdated) % W64 - 1)) = true := by
      simpa using h4
    exact ⟨shareValue_hasPerms _ _ hini, by rw [shareValue_isInit]; exact hini⟩

/-- The `pendingRewards` plaintext visible after a sync. -/
def pendingAfterSync (r : Except Err (State × EV)) (u : Nat) : Option (Option Nat) :=
  (infoAfterSync r u).map (fun i => i.pendingRewards.val)

/-- Whether a sync succeeded. -/
def isOkSync (r : Except Err (State × EV)) : Bool :=
  match r with
  | .ok _ => true
  | .error _ => false

/-- State where address 1 has `pendingRewards = 7`, checkpointed at `t = 5`. -/
def smallPendingState : State :=
  { emptyState with
      stakes := setAt emptyState.stakes 1
        { StakeInfo.empty with pendingRewards := fresh (some 7), lastUpdated := 5 } }

/-- State where address 1 has `ethStake = 100` wei, checkpointed at `t = 5`. -/
def smallEthState : State :=
  { emptyState with
      stakes := setAt emptyState.stakes 1
        { StakeInfo.empty with ethStake := fresh (some 100), lastUpdated := 5 } }

/-- State where address 1 holds `musdtStake = 3` and an mUSDT balance of 5,
checkpointed at `t = 5` (used to exercise transfer clamping). -/
def clampState : State :=
  { stakes := setAt emptyState.stakes 1
      { StakeInfo.empty with musdtStake := fresh (some 3), lastUpdated := 5 },
    musdtBalances := setAt (fun _ => 0) 1 5 }

/-! ## The claims -/

/-- C9: `getPosition` returns the four stored `Position` fields verbatim and
leaves the entire state unchanged — no accrual runs and `lastUpdated` does
not advance. -/
theorem getPosition_returns_fields_verbatim_and_preserves_state
    (s : State) (u : Nat) :
    getPosition s u =
      (((s.stakes u).ethStake, (s.stakes u).musdtStake,
        (s.stakes u).pendingRewards, (s.stakes u).lastUpdated), s) := rfl

/-- C10: `syncRewards` succeeds for every caller in every state (no error
path); called on a never-touched position it sets `lastUpdated` to the
current timestamp and returns the still-uninitialized `pendingRewards`
handle. -/
theorem syncRewards_total_and_bootstrap (s : State) (sender now : Nat) :
    isOkSync (syncRewards s sender now) = true ∧
    ((s.stakes sender).lastUpdated = 0 →
      (s.stakes sender).pendingRewards.val = none →
      pendingOfSync (syncRewards s sender now) = some none ∧
        (infoAfterSync (syncRewards s sender now) sender).map StakeInfo.lastUpdated =
          some (now % W64)) := by
  refine ⟨rfl, fun h0 hp => ⟨?_, ?_⟩⟩
  · simp [syncRewards, pendingOfSync, accrue, h0, hp]
  · simp [syncRewards, infoAfterSync, accrue, h0, setAt]

/-- Witness for C10: on the empty state, a sync at `t = 5` returns an
uninitialized rewards handle and stamps `lastUpdated = 5`. -/
theorem syncRewards_total_and_bootstrap_witness :
    pendingOfSync (syncRewards emptyState 1 5) = some none ∧
      (infoAfterSync (syncRewards emptyState 1 5) 1).map StakeInfo.lastUpdated =
        some (5 % W64) :=
  (syncRewards_total_and_bootstrap emptyState 1 5).2 rfl rfl

/-- Counterexample to C2 as stated: with a stake of one whole ETH
(`10^18` wei) and exactly one full day (86,400 s) elapsed since the
checkpoint (`lastUpdated = 1`, sync at `now = 86401`), `pendingRewards` is
999,988 base units, not the full nominal 1,000,000; likewise a stake of
`10^6` mUSDT base units yields 9,999, not 10,000. -/
theorem one_day_accrual_falls_short :
    pendingAfterSync (syncRewards ethDayState 1 86401) 1 = some (some 999988) ∧
    pendingAfterSync (syncRewards ethDayState 1 86401) 1 ≠ some (some 1000000) ∧
    pendingAfterSync (syncRewards musdtDayState 1 86401) 1 = some (some 9999) ∧
    pendingAfterSync (syncRewards musdtDayState 1 86401) 1 ≠ some (some 10000) := by
  decide

/-- Amended C2: with the contract's one-second exclusion, the full nominal
daily interest (1,000,000 reward base units per whole ETH, 10,000 per
`10^6` mUSDT base units) requires 86,401 elapsed seconds; at exactly 86,400
elapsed seconds the accrued amounts are 999,988 and 9,999. -/
theorem one_day_accrual_exact_values :
    pendingAfterSync (syncRewards ethDayState 1 86402) 1 = some (some 1000000) ∧
    pendingAfterSync (syncRewards musdtDayState 1 86402) 1 = some (some 10000) ∧
    pendingAfterSync (syncRewards ethDayState 1 86401) 1 = some (some 999988) ∧
    pendingAfterSync (syncRewards musdtDayState 1 86401) 1 = some (some 9999) := by
  decide

/-- Counterexample to C4 as stated: `syncRewards` on a touched position
(`lastUpdated = 10`) called one second later (`now = 11`) leaves
`lastUpdated = 10 ≠ 11` — accrual does not stamp `lastUpdated`
unconditionally. -/
theorem sync_one_second_does_not_stamp :
    (infoAfterSync (syncRewards touchedState 1 11) 1).map StakeInfo.lastUpdated =
      some 10 ∧ (10 : Nat) ≠ 11 := by
  decide

/-- Counterexample to C1 as stated: a position whose `pendingRewards` is the
representable `euint128` value `2^64` (accrual a no-op at `now = 5`) claims
successfully but mints `2^64 % 2^64 = 0`: the caller's reward-asset balance
stays 0 and does not increase by the pre-claim `pendingRewards`. -/
theorem claim_mint_truncates_large_pendingRewards :
    (accrue 5 1 (bigPendingState.stakes 1)).pendingRewards.val = some (2 ^ 64) ∧
    bigPendingState.musdtBalances 1 = 0 ∧
    mintedOf (claimRewards bigPendingState 1 5) = some 0 ∧
    balAfterClaim (claimRewards bigPendingState 1 5) 1 = some 0 ∧
    (0 : Nat) ≠ 0 + 2 ^ 64 := by
  decide

/-- Counterexample to C6 as stated: a deposit of asset-2 with a zero amount
is not rejected — `stakeMusdt` with an encrypted 0 succeeds and initializes
`musdtStake` to an encrypted 0. -/
theorem stakeMusdt_accepts_zero :
    isOkS (stakeMusdt emptyState 1 0 5) = true ∧
    (infoAfter (stakeMusdt emptyState 1 0 5) 1).map (fun i => i.musdtStake.val) =
      some (some 0) := by
  decide

/-- Counterexample to C3 as stated: all ciphertext arithmetic is modulo
`2^128`.  For `ethStake = 2^127` and `elapsed = 172801` (so
`elapsed - 1 = 172800`), the contract computes
`2^127 * 172800 % 2^128 = 0` and accrues 0, while the claim's exact floor
expression `ethStake * (elapsed-1) / 86400 / 10^12` is nonzero. -/
theorem accrue_formula_wraps_at_width :
    (accrue 172802 1 (hugeEthState.stakes 1)).pendingRewards.val = some 0 ∧
    2 ^ 127 * 172800 / SECONDS_PER_DAY / ETH_TO_REWARD_SCALE ≠ 0 := by
  decide

/-- Amended C1: after accrual, if `pendingRewards` is uninitialized the claim
fails with `NoRewardsAvailable`; if it holds `v`, the claim resets
`pendingRewards` to an initialized, fully shared encrypted zero and mints
`v % 2^64` to the caller (so the reward-asset balance grows by exactly the
pre-claim `pendingRewards` precisely when `v < 2^64` and the balance does
not wrap). -/
theorem claimRewards_resets_and_mints_mod64 (s : State) (sender now : Nat) :
    ((accrue now sender (s.stakes sender)).pendingRewards.val = none →
      claimRewards s sender now = Except.error Err.NoRewardsAvailable) ∧
    (∀ v, (accrue now sender (s.stakes sender)).pendingRewards.val = some v →
      mintedOf (claimRewards s sender now) = some (v % W64) ∧
      (infoAfterClaim (claimRewards s sender now) sender).map
          (fun i => i.pendingRewards) =
        some (shareValue (asEuint128 0) sender true) ∧
      balAfterClaim (claimRewards s sender now) sender =
        some ((s.musdtBalances sender + v % W64) % W64)) := by
  constructor
  · intro h
    unfold claimRewards
    dsimp only
    rw [h]
  · intro v h
    unfold claimRewards
    dsimp only
    rw [h]
    refine ⟨rfl, ?_, ?_⟩
    · simp [infoAfterClaim, setAt]
    · simp [balAfterClaim, mintEncrypted, setAt, Nat.mod_mod_of_dvd]

/-- Witness for C1 (amended): a claim on an uninitialized-rewards position
fails with `NoRewardsAvailable`, and a claim on a position with
`pendingRewards = 7` mints 7 and resets the stored rewards to a shared
zero. -/
theorem claimRewards_resets_and_mints_mod64_witness :
    claimRewards emptyState 1 5 = Except.error Err.NoRewardsAvailable ∧
    mintedOf (claimRewards smallPendingState 1 5) = some (7 % W64) ∧
    (infoAfterClaim (claimRewards smallPendingState 1 5) 1).map
        (fun i => i.pendingRewards) =
      some (shareValue (asEuint128 0) 1 true) ∧
    balAfterClaim (claimRewards smallPendingState 1 5) 1 =
      some ((smallPendingState.musdtBalances 1 + 7 % W64) % W64) :=
  ⟨(claimRewards_resets_and_mints_mod64 emptyState 1 5).1 (by decide),
   (claimRewards_resets_and_mints_mod64 smallPendingState 1 5).2 7 (by decide)⟩

/-- Amended C6: the deposit of asset-1 rejects a zero amount and an amount
exceeding `2^128 - 1` with `InvalidAmount` (and, being embedded as an
`Except` error, changes no state); the deposit of asset-2 performs no amount
validation at all — it succeeds for every requested amount, including an
encrypted zero. -/
theorem stakeEth_rejects_invalid_amounts (s : State) (sender value now : Nat) :
    ((value = 0 ∨ value > W128 - 1) →
      stakeEth s sender value now = Except.error Err.InvalidAmount) ∧
    (∀ req, isOkS (stakeMusdt s sender req now) = true) := by
  constructor
  · intro h
    unfold stakeEth
    rw [if_pos h]
  · intro req
    rfl

/-- Witness for C6 (amended): a zero-value ETH deposit errors with
`InvalidAmount`; an asset-2 deposit of 3 succeeds. -/
theorem stakeEth_rejects_invalid_amounts_witness :
    stakeEth emptyState 1 0 5 = Except.error Err.InvalidAmount ∧
    isOkS (stakeMusdt emptyState 1 3 5) = true :=
  ⟨(stakeEth_rejects_invalid_amounts emptyState 1 0 5).1 (Or.inl rfl),
   (stakeEth_rejects_invalid_amounts emptyState 1 0 5).2 3⟩

/-- Amended C4: after every successful deposit, claim or withdraw,
`lastUpdated` equals the current timestamp (the operations stamp it
explicitly); after a successful sync on an already-touched position,
`lastUpdated` equals the current timestamp *except* when exactly one second
has elapsed, in which case accrual returns early and `lastUpdated` remains
one second behind. -/
theorem lastUpdated_stamping (s : State) (sender now : Nat)
    (hle : (s.stakes sender).lastUpdated ≤ now) (hw : now < W64) :
    (∀ value s', stakeEth s sender value now = Except.ok s' →
      (s'.stakes sender).lastUpdated = now) ∧
    (∀ req s', stakeMusdt s sender req now = Except.ok s' →
      (s'.stakes sender).lastUpdated = now) ∧
    (∀ amount attested sigOk transferOk s',
      withdrawEth s sender amount attested sigOk transferOk now = Except.ok s' →
      (s'.stakes sender).lastUpdated = now) ∧
    (∀ s' m, claimRewards s sender now = Except.ok (s', m) →
      (s'.stakes sender).lastUpdated = now) ∧
    ((s.stakes sender).lastUpdated ≠ 0 →
      ∀ s' ev, syncRewards s sender now = Except.ok (s', ev) →
        (s'.stakes sender).lastUpdated =
          if now - (s.stakes sender).lastUpdated = 1 then (s.stakes sender).lastUpdated
          else now) := by
  have hn : now % W64 = now := Nat.mod_eq_of_lt hw
  refine ⟨?_, ?_, ?_, ?_, ?_⟩
  · intro value s' h
    unfold stakeEth at h
    dsimp only at h
    split at h
    · cases h
    · cases h
      simp [setAt, hn]
  · intro req s' h
    unfold stakeMusdt at h
    dsimp only at h
    cases h
    simp [setAt, hn]
  · intro amount attested sigOk transferOk s' h
    unfold withdrawEth at h
    dsimp only at h
    split at h
    · cases h
    · split at h
      · cases h
      · split at h
        · cases h
        · split at h
          · cases h
          · split at h
            · cases h
            · cases h
              simp [setAt, hn]
  · intro s' m h
    unfold claimRewards at h
    dsimp only at h
    split at h
    · cases h
    · cases h
      simp [setAt, hn]
  · intro h0 s' ev h
    unfold syncRewards at h
    dsimp only at h
    cases h
    simp only [setAt, if_pos rfl, if_true]
    by_cases h1 : now - (s.stakes sender).lastUpdated = 1
    · rw [if_pos h1]
      exact accrue_lastUpdated_one now sender _ h0 hle hw h1
    · rw [if_neg h1]
      exact accrue_lastUpdated_ne_one now sender _ h0 hle hw h1

/-- Helper state for the C4 witness: the post-state of a 5-wei ETH deposit
into the touched position at `t = 11`. -/
def c4AfterStake : State :=
  match stakeEth touchedState 1 5 11 with
  | .ok s' => s'
  | .error _ => touchedState

/-- Witness for C4 (amended): the deposit at `t = 11` stamps
`lastUpdated = 11` on the position previously checkpointed at 10. -/
theorem lastUpdated_stamping_witness : (c4AfterStake.stakes 1).lastUpdated = 11 :=
  (lastUpdated_stamping touchedState 1 11 (by decide) (by decide)).1 5 c4AfterStake rfl

/-- C5: mutating operations are atomic.  A failing `withdrawEth` leaves the
whole state (position and grants) exactly as before the call — the embedded
revert semantics, made explicit by `applyWithdraw` — and the two claimed
failure modes hold: an amount greater than the proof-attested stake fails
with `InvalidAmount`, and a failing native value transfer fails with
`TransferFailed`. -/
theorem withdrawEth_error_modes_atomic (s : State) (sender amount attested now : Nat)
    (sigOk transferOk : Bool)
    (h1 : amount ≠ 0)
    (h2 : isInit (accrue now sender (s.stakes sender)).ethStake = true)
    (h3 : sigOk = true) :
    (∀ e, withdrawEth s sender amount attested sigOk transferOk now = Except.error e →
      applyWithdraw s sender amount attested sigOk transferOk now = s) ∧
    (amount > attested →
      withdrawEth s sender amount attested sigOk transferOk now =
        Except.error Err.InvalidAmount) ∧
    (amount ≤ attested → amount ≤ W128 - 1 → transferOk = false →
      withdrawEth s sender amount attested sigOk transferOk now =
        Except.error Err.TransferFailed) := by
  subst h3
  refine ⟨?_, ?_, ?_⟩
  · intro e h
    unfold applyWithdraw
    rw [h]
  · intro h4
    unfold withdrawEth
    dsimp only
    rw [if_neg h1, if_neg (by rw [h2]; exact fun hc => Bool.noConfusion hc),
      if_neg (fun hc => Bool.noConfusion hc), if_pos (Or.inl h4)]
  · intro h4 h5 h6
    subst h6
    unfold withdrawEth
    dsimp only
    rw [if_neg h1, if_neg (by rw [h2]; exact fun hc => Bool.noConfusion hc),
      if_neg (fun hc => Bool.noConfusion hc), if_neg (by omega), if_pos rfl]

/-- Witness for C5: on a position holding 100 wei (attested as 100),
withdrawing 200 fails with `InvalidAmount`, withdrawing 50 with a failing
transfer fails with `TransferFailed`, and the failing call leaves the state
unchanged. -/
theorem withdrawEth_error_modes_atomic_witness :
    withdrawEth smallEthState 1 200 100 true true 5 =
      Except.error Err.InvalidAmount ∧
    withdrawEth smallEthState 1 50 100 true false 5 =
      Except.error Err.TransferFailed ∧
    applyWithdraw smallEthState 1 200 100 true true 5 = smallEthState :=
  ⟨(withdrawEth_error_modes_atomic smallEthState 1 200 100 5 true true
      (by decide) (by decide) rfl).2.1 (by decide),
   (withdrawEth_error_modes_atomic smallEthState 1 50 100 5 true false
      (by decide) (by decide) rfl).2.2 (by decide) (by decide) rfl,
   (withdrawEth_error_modes_atomic smallEthState 1 200 100 5 true true
      (by decide) (by decide) rfl).1 Err.InvalidAmount
     ((withdrawEth_error_modes_atomic smallEthState 1 200 100 5 true true
        (by decide) (by decide) rfl).2.1 (by decide))⟩

/-- C8: every deposit of asset-2 adds to `musdtStake` exactly the amount the
external confidential-transfer primitive reports as transferred (here its
balance clamp `min requested balance`), not the requested amount.  A first
deposit initializes the stake to exactly the transferred amount; a
subsequent deposit adds it in the `euint128` domain (modulo `2^128`); and
when the token clamps the transfer, the stake provably does not grow by the
requested amount (under the disclosed side conditions that the request fits
the `euint64` input width and, for the subsequent-deposit case, that the
sum does not wrap). -/
theorem stakeMusdt_adds_transferred_amount (s : State) (sender req now : Nat) :
    (confidentialTransferFrom s.musdtBalances sender ledgerAddr req).1 =
      min (req % W64) (s.musdtBalances sender) ∧
    ((s.stakes sender).musdtStake.val = none →
      (infoAfter (stakeMusdt s sender req now) sender).map (fun i => i.musdtStake.val) =
        some (some ((confidentialTransferFrom s.musdtBalances sender ledgerAddr req).1))) ∧
    (∀ m, (s.stakes sender).musdtStake.val = some m →
      (infoAfter (stakeMusdt s sender req now) sender).map (fun i => i.musdtStake.val) =
        some (some ((m +
          (confidentialTransferFrom s.musdtBalances sender ledgerAddr req).1) % W128))) ∧
    ((s.stakes sender).musdtStake.val = none → s.musdtBalances sender < req →
      req < W64 →
      (infoAfter (stakeMusdt s sender req now) sender).map
          (fun i => i.musdtStake.val) ≠ some (some req)) ∧
    (∀ m, (s.stakes sender).musdtStake.val = some m → s.musdtBalances sender < req →
      req < W64 → m + req < W128 →
      (infoAfter (stakeMusdt s sender req now) sender).map
          (fun i => i.musdtStake.val) ≠ some (some (m + req))) := by
  have htr : (confidentialTransferFrom s.musdtBalances sender ledgerAddr req).1 =
      min (req % W64) (s.musdtBalances sender) := rfl
  have hlt64 : min (req % W64) (s.musdtBalances sender) < W64 :=
    lt_of_le_of_lt (min_le_left _ _) (Nat.mod_lt _ (by decide))
  have hlt128 : min (req % W64) (s.musdtBalances sender) < W128 :=
    lt_of_lt_of_le hlt64 (by unfold W64 W128; exact Nat.pow_le_pow_right (by omega) (by omega))
  have hnone : (s.stakes sender).musdtStake.val = none →
      (infoAfter (stakeMusdt s sender req now) sender).map (fun i => i.musdtStake.val) =
        some (some ((confidentialTransferFrom s.musdtBalances sender ledgerAddr req).1)) := by
    intro hm0
    have hinit : isInit (accrue now sender (s.stakes sender)).musdtStake = false := by
      rw [accrue_musdtStake]
      unfold isInit
      rw [hm0]
      rfl
    unfold stakeMusdt infoAfter
    dsimp only
    simp only [setAt, if_pos rfl, if_true, Option.map_some']
    rw [shareValue_val, if_neg (by rw [hinit]; exact fun hc => Bool.noConfusion hc)]
    simp only [htr, asEuint128of64, fresh]
    rw [Nat.mod_eq_of_lt hlt64, Nat.mod_eq_of_lt hlt128]
  have hsome : ∀ m, (s.stakes sender).musdtStake.val = some m →
      (infoAfter (stakeMusdt s sender req now) sender).map (fun i => i.musdtStake.val) =
        some (some ((m +
          (confidentialTransferFrom s.musdtBalances sender ledgerAddr req).1) % W128)) := by
    intro m hm
    have hinit : isInit (accrue now sender (s.stakes sender)).musdtStake = true := by
      rw [accrue_musdtStake]
      unfold isInit
      rw [hm]
      rfl
    unfold stakeMusdt infoAfter
    dsimp only
    simp only [setAt, if_pos rfl, if_true, Option.map_some']
    rw [shareValue_val, if_pos hinit, accrue_musdtStake]
    simp only [htr, asEuint128of64, fresh]
    rw [Nat.mod_eq_of_lt hlt64, Nat.mod_eq_of_lt hlt128]
    unfold fheAdd
    rw [hm]
    rfl
  refine ⟨htr, hnone, hsome, ?_, ?_⟩
  · intro hm0 hlt hreq
    rw [hnone hm0, htr]
    have hbal : min (req % W64) (s.musdtBalances sender) = s.musdtBalances sender := by
      have hq : req % W64 = req := Nat.mod_eq_of_lt hreq
      rw [hq]
      exact min_eq_right (le_of_lt hlt)
    rw [hbal]
    simp only [ne_eq, Option.some.injEq]
    omega
  · intro m hm hlt hreq hnw
    rw [hsome m hm, htr]
    have hbal : min (req % W64) (s.musdtBalances sender) = s.musdtBalances sender := by
      have hq : req % W64 = req := Nat.mod_eq_of_lt hreq
      rw [hq]
      exact min_eq_right (le_of_lt hlt)
    rw [hbal, Nat.mod_eq_of_lt (show m + s.musdtBalances sender < W128 by omega)]
    simp only [ne_eq, Option.some.injEq]
    omega

/-- State for the first-deposit half of the C8 witness: address 1 holds an
mUSDT balance of 5 and a completely untouched position. -/
def clampFreshState : State :=
  { stakes := fun _ => StakeInfo.empty, musdtBalances := setAt (fun _ => 0) 1 5 }

/-- Witness for C8: with balance 5 and requested 10, a first deposit
initializes the stake to the clamped 5 (not 10), and a deposit on a prior
stake of 3 takes it to 8 (not 13). -/
theorem stakeMusdt_adds_transferred_amount_witness :
    ((infoAfter (stakeMusdt clampFreshState 1 10 5) 1).map (fun i => i.musdtStake.val) =
      some (some ((confidentialTransferFrom clampFreshState.musdtBalances 1 ledgerAddr 10).1)) ∧
     (infoAfter (stakeMusdt clampFreshState 1 10 5) 1).map (fun i => i.musdtStake.val) ≠
      some (some 10)) ∧
    ((infoAfter (stakeMusdt clampState 1 10 5) 1).map (fun i => i.musdtStake.val) =
      some (some ((3 +
        (confidentialTransferFrom clampState.musdtBalances 1 ledgerAddr 10).1) % W128)) ∧
     (infoAfter (stakeMusdt clampState 1 10 5) 1).map (fun i => i.musdtStake.val) ≠
      some (some (3 + 10))) :=
  ⟨⟨(stakeMusdt_adds_transferred_amount clampFreshState 1 10 5).2.1 rfl,
    (stakeMusdt_adds_transferred_amount clampFreshState 1 10 5).2.2.2.1 rfl
      (by decide) (by decide)⟩,
   ⟨(stakeMusdt_adds_transferred_amount clampState 1 10 5).2.2.1 3 rfl,
    (stakeMusdt_adds_transferred_amount clampState 1 10 5).2.2.2.2 3 rfl
      (by decide) (by decide) (by decide)⟩⟩

theorem deposit_update_isInit (a : EV) (v : Nat) :
    isInit (if isInit a then fheAdd a (asEuint128 v) else asEuint128 v) = true := by
  split
  · rename_i h
    rw [fheAdd_isInit, h]
    rfl
  · rfl

theorem fheSub_isInit (a b : EV) (ha : isInit a = true) :
    isInit (fheSub a b) = isInit b := by
  unfold isInit at *
  unfold fheSub
  cases hx : a.val <;> cases hy : b.val <;> simp_all [fresh]

/-- C7: after every successful mutating call, each Confidential Value the
call wrote into the caller's Position carries all three grants — the ledger
itself, the owning principal, and public decryptability.  For each
operation the written fields are fully shared and the untouched fields are
unchanged; the `pendingRewards` accrual writes are shared whenever they
happen (otherwise the field is unchanged). -/
theorem written_values_fully_shared (s : State) (sender now : Nat) :
    (∀ value s', stakeEth s sender value now = Except.ok s' →
      hasPerms (s'.stakes sender).ethStake sender ∧
      (s'.stakes sender).musdtStake = (s.stakes sender).musdtStake ∧
      ((s'.stakes sender).pendingRewards = (s.stakes sender).pendingRewards ∨
        hasPerms (s'.stakes sender).pendingRewards sender)) ∧
    (∀ req s', stakeMusdt s sender req now = Except.ok s' →
      hasPerms (s'.stakes sender).musdtStake sender ∧
      (s'.stakes sender).ethStake = (s.stakes sender).ethStake ∧
      ((s'.stakes sender).pendingRewards = (s.stakes sender).pendingRewards ∨
        hasPerms (s'.stakes sender).pendingRewards sender)) ∧
    (∀ amount attested sigOk transferOk s',
      withdrawEth s sender amount attested sigOk transferOk now = Except.ok s' →
      hasPerms (s'.stakes sender).ethStake sender ∧
      (s'.stakes sender).musdtStake = (s.stakes sender).musdtStake ∧
      ((s'.stakes sender).pendingRewards = (s.stakes sender).pendingRewards ∨
        hasPerms (s'.stakes sender).pendingRewards sender)) ∧
    (∀ s' m, claimRewards s sender now = Except.ok (s', m) →
      hasPerms (s'.stakes sender).pendingRewards sender ∧
      isInit (s'.stakes sender).pendingRewards = true ∧
      (s'.stakes sender).ethStake = (s.stakes sender).ethStake ∧
      (s'.stakes sender).musdtStake = (s.stakes sender).musdtStake) ∧
    (∀ s' ev, syncRewards s sender now = Except.ok (s', ev) →
      (s'.stakes sender).ethStake = (s.stakes sender).ethStake ∧
      (s'.stakes sender).musdtStake = (s.stakes sender).musdtStake ∧
      ((s'.stakes sender).pendingRewards = (s.stakes sender).pendingRewards ∨
        hasPerms (s'.stakes sender).pendingRewards sender)) := by
  have hpend := accrue_pendingRewards_cases now sender (s.stakes sender)
  refine ⟨?_, ?_, ?_, ?_, ?_⟩
  · intro value s' h
    unfold stakeEth at h
    dsimp only at h
    split at h
    · cases h
    · cases h
      simp only [setAt, if_pos rfl, if_true]
      refine ⟨shareValue_hasPerms _ _ (deposit_update_isInit _ _), accrue_musdtStake _ _ _, ?_⟩
      rcases hpend with hp | hp
      · exact Or.inl hp
      · exact Or.inr hp.1
  · intro req s' h
    unfold stakeMusdt at h
    dsimp only at h
    cases h
    simp only [setAt, if_pos rfl, if_true]
    refine ⟨shareValue_hasPerms _ _ (?_), accrue_ethStake _ _ _, ?_⟩
    · show isInit (if isInit (accrue now sender (s.stakes sender)).musdtStake then _ else _) = true
      split
      · rename_i hI
        rw [fheAdd_isInit, hI]
        rfl
      · rfl
    · rcases hpend with hp | hp
      · exact Or.inl hp
      · exact Or.inr hp.1
  · intro amount attested sigOk transferOk s' h
    unfold withdrawEth at h
    dsimp only at h
    split at h
    · cases h
    · split at h
      · cases h
      · split at h
        · cases h
        · split at h
          · cases h
          · split at h
            · cases h
            · cases h
              rename_i hIni _ _ _
              simp only [setAt, if_pos rfl, if_true]
              have hEthInit : isInit (accrue now sender (s.stakes sender)).ethStake = true := by
                cases hq : isInit (accrue now sender (s.stakes sender)).ethStake
                · exact absurd hq hIni
                · rfl
              refine ⟨shareValue_hasPerms _ _ ?_, accrue_musdtStake _ _ _, ?_⟩
              · rw [fheSub_isInit _ _ hEthInit]
                rfl
              · rcases hpend with hp | hp
                · exact Or.inl hp
                · exact Or.inr hp.1
  · intro s' m h
    unfold claimRewards at h
    dsimp only at h
    split at h
    · cases h
    · cases h
      simp only [setAt, if_pos rfl, if_true]
      exact ⟨shareValue_hasPerms _ _ rfl, by rw [shareValue_isInit]; rfl,
        accrue_ethStake _ _ _, accrue_musdtStake _ _ _⟩
  · intro s' ev h
    unfold syncRewards at h
    dsimp only at h
    cases h
    simp only [setAt, if_pos rfl, if_true]
    refine ⟨accrue_ethStake _ _ _, accrue_musdtStake _ _ _, ?_⟩
    rcases hpend with hp | hp
    · exact Or.inl hp
    · exact Or.inr hp.1

/-- Helper state for the C7 witness: the post-state of a 5-wei ETH deposit
into the empty state at `t = 9`. -/
def c7AfterStake : State :=
  match stakeEth emptyState 1 5 9 with
  | .ok s' => s'
  | .error _ => emptyState

/-- Witness for C7: after the deposit, the new `ethStake` ciphertext is
shared with the ledger and the caller and is publicly decryptable, and the
untouched fields are unchanged. -/
theorem written_values_fully_shared_witness :
    hasPerms (c7AfterStake.stakes 1).ethStake 1 ∧
    (c7AfterStake.stakes 1).musdtStake = (emptyState.stakes 1).musdtStake ∧
    ((c7AfterStake.stakes 1).pendingRewards = (emptyState.stakes 1).pendingRewards ∨
      hasPerms (c7AfterStake.stakes 1).pendingRewards 1) :=
  (written_values_fully_shared emptyState 1 9).1 5 c7AfterStake rfl

theorem interest_sum_lt (e m el : Nat) (hbe : e * el < W128) (hbm : m * el < W128) :
    e * el / SECONDS_PER_DAY / ETH_TO_REWARD_SCALE +
      m * el / (SECONDS_PER_DAY * PERCENT_DENOMINATOR) < W128 := by
  have h1 : e * el / SECONDS_PER_DAY / ETH_TO_REWARD_SCALE ≤
      (W128 - 1) / SECONDS_PER_DAY / ETH_TO_REWARD_SCALE :=
    Nat.div_le_div_right (Nat.div_le_div_right (Nat.le_pred_of_lt hbe))
  have h2 : m * el / (SECONDS_PER_DAY * PERCENT_DENOMINATOR) ≤
      (W128 - 1) / (SECONDS_PER_DAY * PERCENT_DENOMINATOR) :=
    Nat.div_le_div_right (Nat.le_pred_of_lt hbm)
  have h3 : (W128 - 1) / SECONDS_PER_DAY / ETH_TO_REWARD_SCALE +
      (W128 - 1) / (SECONDS_PER_DAY * PERCENT_DENOMINATOR) < W128 := by decide
  exact lt_of_le_of_lt (Nat.add_le_add h1 h2) h3

theorem interestOf_val (info : StakeInfo) (el e m : Nat)
    (he : info.ethStake.val = some e) (hmu : info.musdtStake.val = some m)
    (hbe : e * el < W128) (hbm : m * el < W128) :
    (interestOf info el).val =
      some (e * el / SECONDS_PER_DAY / ETH_TO_REWARD_SCALE +
        m * el / (SECONDS_PER_DAY * PERCENT_DENOMINATOR)) := by
  unfold interestOf fheMulScalar fheDivScalar fheAdd
  dsimp only
  rw [he, hmu]
  dsimp only [fresh]
  rw [Nat.mod_eq_of_lt hbe, Nat.mod_eq_of_lt hbm,
    Nat.mod_eq_of_lt (interest_sum_lt e m el hbe hbm)]

/-- Amended C3: the accrual routine is the claimed exact function of
`(position, now)` with all ciphertext arithmetic taken modulo `2^128`: the
bootstrap case only stamps `lastUpdated`; `elapsed ≤ 1` adds nothing; for
`elapsed > 1` with both stakes initialized, whenever the products
`stake * (elapsed-1)` and the accumulated sum stay below `2^128` it adds
exactly `floor(floor(ethStake*(elapsed-1)/86400) / 10^12) +
floor(musdtStake*(elapsed-1)/8640000)` to `pendingRewards` (taking the sum
directly when `pendingRewards` was uninitialized). -/
theorem accrue_exact_formula (info : StakeInfo) (user now : Nat)
    (hle : info.lastUpdated ≤ now) (hw : now < W64) :
    (info.lastUpdated = 0 → accrue now user info = { info with lastUpdated := now }) ∧
    (info.lastUpdated ≠ 0 → now - info.lastUpdated ≤ 1 → accrue now user info = info) ∧
    (∀ e m, info.lastUpdated ≠ 0 → 1 < now - info.lastUpdated →
      info.ethStake.val = some e → info.musdtStake.val = some m →
      e * (now - info.lastUpdated - 1) < W128 →
      m * (now - info.lastUpdated - 1) < W128 →
      ((info.pendingRewards.val = none →
        (accrue now user info).pendingRewards.val =
          some (e * (now - info.lastUpdated - 1) / SECONDS_PER_DAY / ETH_TO_REWARD_SCALE +
            m * (now - info.lastUpdated - 1) / (SECONDS_PER_DAY * PERCENT_DENOMINATOR))) ∧
      (∀ p, info.pendingRewards.val = some p →
        p + (e * (now - info.lastUpdated - 1) / SECONDS_PER_DAY / ETH_TO_REWARD_SCALE +
          m * (now - info.lastUpdated - 1) / (SECONDS_PER_DAY * PERCENT_DENOMINATOR)) < W128 →
        (accrue now user info).pendingRewards.val =
          some (p + (e * (now - info.lastUpdated - 1) / SECONDS_PER_DAY / ETH_TO_REWARD_SCALE +
            m * (now - info.lastUpdated - 1) /
              (SECONDS_PER_DAY * PERCENT_DENOMINATOR)))))) := by
  have hm : (now - info.lastUpdated) % W64 = now - info.lastUpdated :=
    Nat.mod_eq_of_lt (lt_of_le_of_lt (Nat.sub_le _ _) hw)
  refine ⟨?_, ?_, ?_⟩
  · intro h0
    unfold accrue
    dsimp only
    rw [if_pos h0, Nat.mod_eq_of_lt hw]
  · intro h0 h1
    unfold accrue
    dsimp only
    rw [if_neg h0, hm]
    have h2 : now - info.lastUpdated = 0 ∨ now - info.lastUpdated = 1 := by omega
    rcases h2 with h2 | h2
    · rw [if_pos h2]
    · rw [h2]
      rfl
  · intro e m h0 h1 he hmu hbe hbm
    have hint := interestOf_val info (now - info.lastUpdated - 1) e m he hmu hbe hbm
    have hinitI : isInit (interestOf info (now - info.lastUpdated - 1)) = true := by
      unfold isInit
      rw [hint]
      rfl
    unfold accrue
    dsimp only
    rw [if_neg h0, hm, if_neg (by omega), if_neg (by omega),
      if_neg (by rw [hinitI]; exact fun hc => Bool.noConfusion hc)]
    constructor
    · intro hp
      have hpf : isInit info.pendingRewards = false := by
        unfold isInit
        rw [hp]
        rfl
      rw [if_neg (by rw [hpf]; exact fun hc => Bool.noConfusion hc)]
      rw [shareValue_val, hint]
    · intro p hp hps
      have hpt : isInit info.pendingRewards = true := by
        unfold isInit
        rw [hp]
        rfl
      rw [if_pos hpt, shareValue_val]
      unfold fheAdd
      rw [hp, hint]
      dsimp only [fresh]
      rw [Nat.mod_eq_of_lt hps]

/-- A position holding both one whole ETH and `10^6` mUSDT base units,
checkpointed at `t = 1`. -/
def bothDayInfo : StakeInfo :=
  { ethStake := fresh (some (10 ^ 18)), musdtStake := fresh (some (10 ^ 6)),
    pendingRewards := EV.uninit, lastUpdated := 1 }

/-- Witness for C3 (amended): at `now = 86402` (effective elapsed 86,400 s
after the one-second exclusion), the position accrues exactly
`1,000,000 + 10,000` reward base units. -/
theorem accrue_exact_formula_witness :
    (accrue 86402 1 bothDayInfo).pendingRewards.val =
      some (10 ^ 18 * (86402 - bothDayInfo.lastUpdated - 1) / SECONDS_PER_DAY /
          ETH_TO_REWARD_SCALE +
        10 ^ 6 * (86402 - bothDayInfo.lastUpdated - 1) /
          (SECONDS_PER_DAY * PERCENT_DENOMINATOR)) :=
  ((accrue_exact_formula bothDayInfo 1 86402 (by decide) (by decide)).2.2
    (10 ^ 18) (10 ^ 6) (by decide) (by decide) rfl rfl (by decide) (by decide)).1 rfl

end EnclaveFi
